import Mathlib

/-!
Verification of the resumable, retrying bulk-upload engine in `app.py`.

The embedding models:
- `is_transient` — the transient-error classifier (lines 53-60), as a predicate
  over the error's textual representation (`str(err).lower()` + substring checks);
- `delayFor` — the backoff expression from line 69, over exact rationals;
- `next_chunk_with_retry` (lines 62-74) — as a state machine consuming a script
  of outcomes of the underlying `request.next_chunk()` calls, recording the
  number of calls made and the sleeps performed;
- `upload_chunk_loop` — the per-file `while True` chunk loop of `upload_files`
  (lines 121-127), with the retry logic of `next_chunk_with_retry` inlined
  (each `while` iteration calls `next_chunk_with_retry` afresh, resetting the
  attempt counter to 0 for the next chunk);
- `upload_files` (lines 100-138) — the batch coordinator, producing the ordered
  trace of observer callbacks (status / progress), sleeps and deletion attempts;
- `upload` (lines 155-184) — the `/upload` intake handler.

External collaborators (the Google Drive client, the filesystem) are modelled as
scripts of outcomes: each `request.next_chunk()` call either returns a
`(status, done)` pair (with `status.progress()` a rational fraction, or `None`)
or raises an exception, described by its Python type name, whether it is an
instance of the caught types `(HttpError, OSError)`, and its text.
-/

/-- ASCII-adequate model of Python `str.lower()`. -/
def lowerStr (s : String) : String := String.mk (s.toList.map Char.toLower)

/-- `startsWithChars s p` holds when `p` is a leading segment of `s`. -/
def startsWithChars : List Char → List Char → Bool
  | _, [] => true
  | [], _ :: _ => false
  | c :: cs, d :: ds => c = d && startsWithChars cs ds

/-- `hasSubChars s p`: Python's `p in s` substring test, on character lists. -/
def hasSubChars : List Char → List Char → Bool
  | [], p => startsWithChars [] p
  | c :: cs, p => startsWithChars (c :: cs) p || hasSubChars cs p

/-- The signature list of `is_transient` (app.py lines 55-60), in source order. -/
def transientSigs : List String :=
  ["eof occurred", "connection reset", "broken pipe",
   "timed out", "timeout", "ssl", "tls",
   "reset by peer", "transport closed",
   "503", "500", "429"]

/-- `is_transient` (app.py lines 53-60): lowercase the error text and test
whether any known transient signature occurs in it as a substring. -/
def is_transient (err : String) : Bool :=
  let s := lowerStr err
  transientSigs.any (fun sig => hasSubChars s.toList sig.toList)

/-- The backoff delay of app.py line 69:
`base_delay * (2 ** intento) * (1 + 0.12 * (intento % 3))`, over exact
rationals (`0.12 = 12/100`). -/
def delayFor (base_delay : ℚ) (intento : ℕ) : ℚ :=
  base_delay * 2 ^ intento * (1 + 0.12 * ((intento % 3 : ℕ) : ℚ))

/-- One outcome of a `request.next_chunk()` call: either a returned
`(status, done)` pair — `status` carries `status.progress()` as a rational
fraction when non-`None` — or a raised exception, described by its type name,
whether it is an instance of `(HttpError, OSError)`, and its `str` text. -/
inductive CallOutcome where
  | ok (status : Option ℚ) (done : Bool)
  | exn (etype : String) (caught : Bool) (text : String)
  deriving DecidableEq

/-- Result of one `next_chunk_with_retry` call. -/
inductive RetryResult where
  | returned (status : Option ℚ) (done : Bool)
  | raised (etype : String) (text : String)
  | starved
  deriving DecidableEq

/-- Observable run of one `next_chunk_with_retry` call: its result, the number
of `request.next_chunk()` calls it made, and the sleeps it performed. -/
structure RetryRun where
  result : RetryResult
  calls : ℕ
  sleeps : List ℚ
  deriving DecidableEq

/-- `next_chunk_with_retry` (app.py lines 62-74) over a script of outcomes of
the successive `request.next_chunk()` calls. An exception of a type other than
`HttpError`/`OSError` is not caught and propagates; a caught exception is
re-raised unless `intento < max_retries` and `is_transient` holds, in which
case the loop sleeps `delayFor base_delay intento`, increments `intento` and
retries. `starved` marks exhaustion of the script (a model artifact). -/
def next_chunk_with_retry (max_retries : ℕ) (base_delay : ℚ) (intento : ℕ) :
    List CallOutcome → RetryRun
  | [] => ⟨.starved, 0, []⟩
  | .ok status done :: _ => ⟨.returned status done, 1, []⟩
  | .exn etype caught text :: rest =>
    if caught = true ∧ intento < max_retries ∧ is_transient text = true then
      let r := next_chunk_with_retry max_retries base_delay (intento + 1) rest
      ⟨r.result, r.calls + 1, delayFor base_delay intento :: r.sleeps⟩
    else ⟨.raised etype text, 1, []⟩

/-- One observable event of a batch run: a status-callback message, a
progress-callback percentage, a backoff sleep, or an `os.remove` attempt on a
staged file (`ok` records whether the deletion succeeded). -/
inductive Ev where
  | status (msg : String)
  | progress (pct : ℤ)
  | sleep (d : ℚ)
  | remove (path : String) (ok : Bool)
  deriving DecidableEq

/-- Outcome of one file's chunk loop: the file completed, an exception
propagated out of `next_chunk_with_retry`, or the outcome script ran out
(model artifact). Each carries the events emitted during the loop. -/
inductive SessRes where
  | completed (evs : List Ev)
  | failed (evs : List Ev) (etype : String) (text : String)
  | starved (evs : List Ev)
  deriving DecidableEq

/-- The events a session outcome carries. -/
def SessRes.evs : SessRes → List Ev
  | .completed e => e
  | .failed e _ _ => e
  | .starved e => e

/-- Prepend events to a session outcome. -/
def SessRes.push (pre : List Ev) : SessRes → SessRes
  | .completed e => .completed (pre ++ e)
  | .failed e ty tx => .failed (pre ++ e) ty tx
  | .starved e => .starved (pre ++ e)

/-- The per-file `while True` chunk loop of `upload_files` (app.py lines
121-127), with `next_chunk_with_retry` inlined: each loop iteration calls
`next_chunk_with_retry` afresh, so `intento` restarts at 0 for every new
chunk; within one call it counts consecutive transient failures. On a
returned `(status, done)` pair the loop emits
`progress_cb(int(status.progress() * 100))` when `status` is non-`None`
(`int` truncates; the fraction is nonnegative, so this is the floor), then
breaks when `done`. -/
def upload_chunk_loop (max_retries : ℕ) (base_delay : ℚ) (intento : ℕ) :
    List CallOutcome → SessRes
  | [] => .starved []
  | .ok status done :: rest =>
    let evs := match status with
      | some q => [Ev.progress ⌊q * 100⌋]
      | none => []
    if done then .completed evs
    else .push evs (upload_chunk_loop max_retries base_delay 0 rest)
  | .exn etype caught text :: rest =>
    if caught = true ∧ intento < max_retries ∧ is_transient text = true then
      .push [Ev.sleep (delayFor base_delay intento)]
        (upload_chunk_loop max_retries base_delay (intento + 1) rest)
    else .failed [] etype text

/-- One staged file handed to the coordinator: its local path and the script
of outcomes its `request.next_chunk()` calls will produce. -/
structure FileSpec where
  ruta : String
  script : List CallOutcome
  deriving DecidableEq

/-- `os.path.basename`: the part of the path after the last separator. -/
def basenameChars (l : List Char) : List Char :=
  l.foldl (fun acc c => if c = '/' then [] else acc ++ [c]) []

/-- `os.path.basename` on strings. -/
def basename (p : String) : String := String.mk (basenameChars p.toList)

/-- The status message of app.py line 114. -/
def subiendoMsg (i total : ℕ) (nombre : String) : String :=
  "Subiendo (" ++ toString i ++ "/" ++ toString total ++ "): " ++ nombre

/-- The status message of app.py line 131. -/
def errorMsg (etype text : String) : String :=
  "❌ Error: " ++ etype ++ ": " ++ text

/-- The `for i, ruta in enumerate(rutas, start=1)` loop of `upload_files`
(app.py lines 112-127): for each file emit the `Subiendo (i/total): nombre`
status and a progress reset to 0, then run its chunk loop; a failure aborts
the loop (the exception propagates to the coordinator's `except`). Returns
the emitted events, the propagated exception if any, and whether the model
script was exhausted. -/
def upload_files_loop (max_retries : ℕ) (base_delay : ℚ) (total : ℕ) :
    ℕ → List FileSpec → List Ev × Option (String × String) × Bool
  | _, [] => ([], none, false)
  | i, f :: rest =>
    let head := [Ev.status (subiendoMsg i total (basename f.ruta)), Ev.progress 0]
    match upload_chunk_loop max_retries base_delay 0 f.script with
    | .completed evs =>
      let r := upload_files_loop max_retries base_delay total (i + 1) rest
      (head ++ evs ++ r.1, r.2)
    | .failed evs etype text => (head ++ evs, some (etype, text), false)
    | .starved evs => (head ++ evs, none, true)

/-- `upload_files` (app.py lines 100-138). `cuentas` models the `CUENTAS`
mapping (name ↦ folder id); an unknown `cuenta` makes `get_service` raise
`KeyError(f"Cuenta desconocida: {cuenta}")`, caught by the `except` clause
(Python renders the `KeyError` text with quotes). On normal completion of all
files the coordinator emits `progress_cb(100)` and the success status. The
`finally` clause attempts `os.remove` on every staged path in order; `delOk`
scripts which deletions succeed, and a failed deletion is swallowed by the
inner `except: pass`. -/
def upload_files (cuentas : List (String × String)) (cuenta : String)
    (files : List FileSpec) (delOk : String → Bool)
    (max_retries : ℕ) (base_delay : ℚ) : List Ev :=
  let removals := files.map (fun f => Ev.remove f.ruta (delOk f.ruta))
  match cuentas.lookup cuenta with
  | none =>
    [Ev.status (errorMsg "KeyError"
      ("\x27Cuenta desconocida: " ++ cuenta ++ "\x27"))] ++ removals
  | some _ =>
    match upload_files_loop max_retries base_delay files.length 1 files with
    | (evs, some (etype, text), _) => evs ++ [Ev.status (errorMsg etype text)] ++ removals
    | (evs, none, true) => evs ++ removals
    | (evs, none, false) =>
      evs ++ [Ev.progress 100, Ev.status "✅ Subida completada"] ++ removals

/-- `UPLOAD_DIR` default (app.py line 25). -/
def UPLOAD_DIR : String := "temp_uploads"

/-- Python truthiness of `request.form.get("cuenta")`: falsy when absent or
the empty string. -/
def falsyStr : Option String → Bool
  | none => true
  | some s => s = ""

/-- Observable outcome of one `/upload` request: HTTP status code, the JSON
`error` field if any, the staged file paths saved by this request, and
whether a background worker thread was started. -/
structure UploadResp where
  code : ℕ
  error : Option String
  saved : List String
  workerStarted : Bool
  deriving DecidableEq

/-- The `/upload` handler (app.py lines 155-184). `cuentasKeys` models the
keys of `CUENTAS`; `secure_fn` models `werkzeug.utils.secure_filename`;
`archivos` carries each uploaded file's `filename` attribute (`none` for a
missing filename, turned into `"archivo"` by `f.filename or "archivo"`).
Files whose sanitized name is empty are skipped; each kept file is saved to
`os.path.join(UPLOAD_DIR, filename)`. A worker is started only on the 202
path. -/
def upload (cuentasKeys : List String) (secure_fn : String → String)
    (cuenta : Option String) (archivos : List (Option String)) : UploadResp :=
  if falsyStr cuenta || archivos.isEmpty then
    ⟨400, some "Faltan parámetros: cuenta y archivos", [], false⟩
  else if cuenta.getD "" ∈ cuentasKeys then
    let rutas := archivos.filterMap (fun f =>
      let filename := secure_fn (match f with
        | none => "archivo"
        | some "" => "archivo"
        | some s => s)
      if filename = "" then none else some (UPLOAD_DIR ++ "/" ++ filename))
    if rutas = [] then ⟨400, some "No se recibieron archivos válidos", [], false⟩
    else ⟨202, none, rutas, true⟩
  else ⟨400, some ("Cuenta desconocida: " ++ cuenta.getD ""), [], false⟩

/-- Whether an event is an `os.remove` attempt. -/
def Ev.isRemove : Ev → Bool
  | .remove _ _ => true
  | _ => false

/-- Whether an event is a status-callback invocation. -/
def Ev.isStatus : Ev → Bool
  | .status _ => true
  | _ => false

/-- The sequence of messages passed to the status callback, in order. -/
def statusTrace (evs : List Ev) : List String :=
  evs.filterMap (fun e => match e with | .status s => some s | _ => none)

/-- The sequence of percentages passed to the progress callback, in order. -/
def progressVals (evs : List Ev) : List ℤ :=
  evs.filterMap (fun e => match e with | .progress p => some p | _ => none)

/-- The progress fractions successively reported by the remote session in a
script: the `status.progress()` values of the non-`None` statuses among the
returned `(status, done)` pairs, in order. -/
def okFracs (script : List CallOutcome) : List ℚ :=
  script.filterMap (fun o => match o with | .ok (some q) _ => some q | _ => none)

/-- The transient classes named by the specification, with the spec's
substring list corrected to the signatures the code actually tests (the
bare substring "reset" is not among them; the code instead tests the two
specific phrases "connection reset" and "reset by peer"). -/
def specTransientClasses : List String :=
  ["connection reset", "broken pipe", "timed out", "timeout",
   "ssl", "tls", "reset by peer", "transport closed", "eof occurred",
   "429", "500", "503"]

/-! ## Helper lemmas -/

theorem SessRes.evs_push (pre : List Ev) (r : SessRes) :
    (SessRes.push pre r).evs = pre ++ r.evs := by
  cases r <;> rfl

/-! ## C1 — the transient-error classifier -/

/-- C1, counterexample: the claim asserts that every error whose text contains
the substring "reset" is classified transient, but the code only matches the
phrases "connection reset" and "reset by peer"; the error text "reset" (e.g.
"stream reset") contains "reset" yet `is_transient` returns `false`. -/
theorem is_transient_reset_counterexample :
    hasSubChars (lowerStr "reset").toList "reset".toList = true ∧
    is_transient "reset" = false := by decide

/-- C1, amended: `is_transient err` returns `true` iff the lowercased text of
`err` contains one of the code's transient signatures — "connection reset",
"broken pipe", "timed out", "timeout", "ssl", "tls", "reset by peer",
"transport closed", "eof occurred", "429", "500", "503" (not the bare
substring "reset") — and it returns `false` for every other error, e.g. for
the texts "invalid_grant" and "404". -/
theorem is_transient_matches_code_signatures :
    (∀ err : String, is_transient err = true ↔
      ∃ sig ∈ specTransientClasses,
        hasSubChars (lowerStr err).toList sig.toList = true) ∧
    is_transient "invalid_grant" = false ∧ is_transient "404" = false := by
  refine ⟨fun err => ?_, by decide, by decide⟩
  simp only [is_transient, transientSigs, specTransientClasses, List.any_eq_true,
    List.mem_cons, List.not_mem_nil, or_false, exists_eq_or_imp, exists_eq_left]
  tauto

/-! ## C4 — backoff monotonicity -/

/-- C4: for every positive base delay, the backoff delay
`delayFor base_delay` is strictly increasing in the attempt index, and at
attempt 0 it equals the base delay. -/
theorem delayFor_strictMono (base_delay : ℚ) (hb : 0 < base_delay) :
    StrictMono (delayFor base_delay) ∧ delayFor base_delay 0 = base_delay := by
  constructor
  · apply strictMono_nat_of_lt_succ
    intro n
    have hp : (0 : ℚ) < 2 ^ n := by positivity
    have h3 : n % 3 = 0 ∨ n % 3 = 1 ∨ n % 3 = 2 := by omega
    rcases h3 with h | h | h
    · have h2 : (n + 1) % 3 = 1 := by omega
      rw [delayFor, delayFor, h, h2, pow_succ]
      push_cast
      nlinarith
    · have h2 : (n + 1) % 3 = 2 := by omega
      rw [delayFor, delayFor, h, h2, pow_succ]
      push_cast
      nlinarith
    · have h2 : (n + 1) % 3 = 0 := by omega
      rw [delayFor, delayFor, h, h2, pow_succ]
      push_cast
      nlinarith
  · norm_num [delayFor]

/-- C4, witness at the default base delay 1.2. -/
theorem delayFor_strictMono_witness :
    (0 : ℚ) < 1.2 ∧ delayFor 1.2 0 < delayFor 1.2 1 ∧ delayFor 1.2 0 = 1.2 :=
  ⟨by norm_num,
   (delayFor_strictMono 1.2 (by norm_num)).1 (by norm_num : 0 < 1),
   (delayFor_strictMono 1.2 (by norm_num)).2⟩

/-! ## C2, C3, C10 — the retry loop -/

theorem next_chunk_with_retry_calls_le (max_retries : ℕ) (base_delay : ℚ)
    (script : List CallOutcome) :
    ∀ intento, (next_chunk_with_retry max_retries base_delay intento script).calls ≤
      (max_retries - intento) + 1 := by
  induction script with
  | nil => intro i; simp [next_chunk_with_retry]
  | cons o rest ih =>
    intro i
    match o with
    | .ok st d => simp [next_chunk_with_retry]
    | .exn ty c tx =>
      simp only [next_chunk_with_retry]
      split
      · rename_i h
        have hi : i < max_retries := h.2.1
        have := ih (i + 1)
        show (next_chunk_with_retry max_retries base_delay (i + 1) rest).calls + 1 ≤
          (max_retries - i) + 1
        omega
      · simp

/-- C2: with `max_retries = 7`, `next_chunk_with_retry` makes at most 8 calls
to `request.next_chunk()` (the initial call plus at most 7 retries) on every
outcome script; and on a script of 8 consecutive transient `OSError`
failures, the 8th failure is raised rather than retried, after exactly 8
calls — the bound is never reset within one invocation. -/
theorem next_chunk_with_retry_retry_bound (base_delay : ℚ) :
    (∀ script : List CallOutcome,
      (next_chunk_with_retry 7 base_delay 0 script).calls ≤ 7 + 1) ∧
    (next_chunk_with_retry 7 base_delay 0
      [.exn "OSError" true "connection reset", .exn "OSError" true "connection reset",
       .exn "OSError" true "connection reset", .exn "OSError" true "connection reset",
       .exn "OSError" true "connection reset", .exn "OSError" true "connection reset",
       .exn "OSError" true "connection reset", .exn "OSError" true "connection reset"]).result =
      .raised "OSError" "connection reset" ∧
    (next_chunk_with_retry 7 base_delay 0
      [.exn "OSError" true "connection reset", .exn "OSError" true "connection reset",
       .exn "OSError" true "connection reset", .exn "OSError" true "connection reset",
       .exn "OSError" true "connection reset", .exn "OSError" true "connection reset",
       .exn "OSError" true "connection reset", .exn "OSError" true "connection reset"]).calls =
      7 + 1 := by
  refine ⟨fun script => next_chunk_with_retry_calls_le 7 base_delay script 0, ?_, ?_⟩ <;>
    norm_num [next_chunk_with_retry,
      show is_transient "connection reset" = true from by decide]

theorem next_chunk_with_retry_sleeps_getD (max_retries : ℕ) (base_delay : ℚ)
    (script : List CallOutcome) :
    ∀ intento n,
      n < (next_chunk_with_retry max_retries base_delay intento script).sleeps.length →
      (next_chunk_with_retry max_retries base_delay intento script).sleeps.getD n 0 =
        delayFor base_delay (intento + n) := by
  induction script with
  | nil => intro i n h; simp [next_chunk_with_retry] at h
  | cons o rest ih =>
    intro i n h
    match o with
    | .ok st d => simp [next_chunk_with_retry] at h
    | .exn ty c tx =>
      simp only [next_chunk_with_retry] at h ⊢
      by_cases hc : c = true ∧ i < max_retries ∧ is_transient tx = true
      · rw [if_pos hc] at h ⊢
        match n with
        | 0 => simp
        | n + 1 =>
          have hlen :
              n < (next_chunk_with_retry max_retries base_delay (i + 1) rest).sleeps.length := by
            simpa using h
          have := ih (i + 1) n hlen
          simpa [Nat.add_assoc, Nat.add_comm 1 n] using this
      · rw [if_neg hc] at h
        simp at h

/-- C3: with the default `max_retries = 7`, the n-th sleep performed by
`next_chunk_with_retry` (the delay before the (n+1)-th retry, attempt index
starting at 0) equals `base_delay * 2 ^ n * (1 + 0.12 * (n % 3))`. -/
theorem backoff_delay_formula (base_delay : ℚ) (script : List CallOutcome) (n : ℕ)
    (h : n < (next_chunk_with_retry 7 base_delay 0 script).sleeps.length) :
    (next_chunk_with_retry 7 base_delay 0 script).sleeps.getD n 0 =
      base_delay * 2 ^ n * (1 + 0.12 * ((n % 3 : ℕ) : ℚ)) := by
  have := next_chunk_with_retry_sleeps_getD 7 base_delay script 0 n h
  simpa [delayFor] using this

/-- C3, witness at the default base delay 1.2 and a one-retry script. -/
theorem backoff_delay_formula_witness :
    0 < (next_chunk_with_retry 7 1.2 0
      [.exn "OSError" true "timeout", .ok none true]).sleeps.length ∧
    (next_chunk_with_retry 7 1.2 0
      [.exn "OSError" true "timeout", .ok none true]).sleeps.getD 0 0 =
      1.2 * 2 ^ 0 * (1 + 0.12 * ((0 % 3 : ℕ) : ℚ)) := by
  have h : 0 < (next_chunk_with_retry 7 1.2 0
      [.exn "OSError" true "timeout", .ok none true]).sleeps.length := by
    norm_num [next_chunk_with_retry,
      show is_transient "timeout" = true from by decide]
  exact ⟨h, backoff_delay_formula 1.2 _ 0 h⟩

/-- C10: an exception whose type is not among the caught `(HttpError, OSError)`
propagates immediately out of `next_chunk_with_retry`: exactly one
`request.next_chunk()` call is made, no sleep is performed and the attempt
counter is not advanced, whatever the exception's text — in particular even
when the text (here "Read timed out") matches a transient signature. -/
theorem next_chunk_with_retry_uncaught_propagates :
    (∀ (max_retries : ℕ) (base_delay : ℚ) (intento : ℕ) (etype text : String)
      (rest : List CallOutcome),
      next_chunk_with_retry max_retries base_delay intento
        (.exn etype false text :: rest) = ⟨.raised etype text, 1, []⟩) ∧
    is_transient "Read timed out" = true ∧
    next_chunk_with_retry 7 1.2 0 [.exn "ValueError" false "Read timed out"] =
      ⟨.raised "ValueError" "Read timed out", 1, []⟩ := by
  refine ⟨fun m b i ty tx rest => ?_, by decide, ?_⟩ <;>
    simp [next_chunk_with_retry]

/-! ## Coordinator lemmas -/

theorem upload_chunk_loop_evs_kinds (max_retries : ℕ) (base_delay : ℚ)
    (script : List CallOutcome) :
    ∀ intento, ((upload_chunk_loop max_retries base_delay intento script).evs.all
      (fun e => !e.isRemove && !e.isStatus)) = true := by
  induction script with
  | nil => intro i; rfl
  | cons o rest ih =>
    intro i
    match o with
    | .ok st d =>
      cases d with
      | true =>
        cases st with
        | none => simp [upload_chunk_loop, SessRes.evs]
        | some q => simp [upload_chunk_loop, SessRes.evs, Ev.isRemove, Ev.isStatus]
      | false =>
        cases st with
        | none => simpa [upload_chunk_loop, SessRes.evs_push] using ih 0
        | some q =>
          simp only [upload_chunk_loop, SessRes.evs_push, Bool.false_eq_true, if_false,
            List.all_append, List.all_cons, List.all_nil, Ev.isRemove, Ev.isStatus,
            Bool.not_false, Bool.and_true, Bool.true_and]
          exact ih 0
    | .exn ty c tx =>
      by_cases hc : c = true ∧ i < max_retries ∧ is_transient tx = true
      · simp only [upload_chunk_loop, if_pos hc, SessRes.evs_push, List.all_append,
          List.all_cons, List.all_nil, Ev.isRemove, Ev.isStatus, Bool.not_false,
          Bool.and_true, Bool.true_and]
        exact ih (i + 1)
      · simp [upload_chunk_loop, if_neg hc, SessRes.evs]

theorem all_no_remove_of_kinds {evs : List Ev}
    (h : (evs.all (fun e => !e.isRemove && !e.isStatus)) = true) :
    (evs.all (fun e => !e.isRemove)) = true := by
  rw [List.all_eq_true] at h ⊢
  intro e he
  have := h e he
  simp only [Bool.and_eq_true] at this
  exact this.1

theorem statusTrace_eq_nil_of_kinds {evs : List Ev}
    (h : (evs.all (fun e => !e.isRemove && !e.isStatus)) = true) :
    statusTrace evs = [] := by
  induction evs with
  | nil => rfl
  | cons e rest ih =>
    rw [List.all_cons, Bool.and_eq_true] at h
    have h2 := ih h.2
    cases e with
    | status s => simp [Ev.isStatus, Ev.isRemove] at h
    | progress p => simpa [statusTrace, List.filterMap_cons] using h2
    | sleep d => simpa [statusTrace, List.filterMap_cons] using h2
    | remove a b => simp [Ev.isRemove] at h

theorem upload_files_loop_no_remove (max_retries : ℕ) (base_delay : ℚ) (total : ℕ)
    (files : List FileSpec) :
    ∀ i, ((upload_files_loop max_retries base_delay total i files).1.all
      (fun e => !e.isRemove)) = true := by
  induction files with
  | nil => intro i; rfl
  | cons f rest ih =>
    intro i
    have hf := all_no_remove_of_kinds
      (upload_chunk_loop_evs_kinds max_retries base_delay f.script 0)
    rw [List.all_eq_true] at hf
    have hr := ih (i + 1)
    rw [List.all_eq_true] at hr
    rw [List.all_eq_true]
    intro e he
    cases e with
    | status s => rfl
    | progress p => rfl
    | sleep d => rfl
    | remove path ok =>
      exfalso
      rcases hs : upload_chunk_loop max_retries base_delay 0 f.script with
        evs | ⟨evs, ty, tx⟩ | evs <;> rw [hs] at hf <;> simp only [SessRes.evs] at hf <;>
        simp only [upload_files_loop, hs, List.mem_append, List.mem_cons,
          List.not_mem_nil, or_false] at he
      · rcases he with ((he | he) | he) | he
        · exact Ev.noConfusion he
        · exact Ev.noConfusion he
        · simpa [Ev.isRemove] using hf _ he
        · simpa [Ev.isRemove] using hr _ he
      · rcases he with (he | he) | he
        · exact Ev.noConfusion he
        · exact Ev.noConfusion he
        · simpa [Ev.isRemove] using hf _ he
      · rcases he with (he | he) | he
        · exact Ev.noConfusion he
        · exact Ev.noConfusion he
        · simpa [Ev.isRemove] using hf _ he

/-! ## C6 — best-effort cleanup -/

/-- C6: for every batch and every outcome (all files succeed, an exception is
raised — unknown account or a fatal transfer error — or the model script runs
out), `upload_files` attempts to delete each originally staged local file
exactly once, in order, after all status/progress events (the terminal state);
the deletion attempts and the rest of the trace are the same whatever the
deletion-success script `delOk` says, so an individual deletion failure
neither raises nor prevents the remaining deletions. -/
theorem upload_files_cleanup (cuentas : List (String × String)) (cuenta : String)
    (files : List FileSpec) (delOk : String → Bool) (max_retries : ℕ) (base_delay : ℚ) :
    ∃ core : List Ev,
      upload_files cuentas cuenta files delOk max_retries base_delay =
        core ++ files.map (fun f => Ev.remove f.ruta (delOk f.ruta)) ∧
      core.all (fun e => !e.isRemove) = true := by
  have hloop := upload_files_loop_no_remove max_retries base_delay files.length files 1
  simp only [upload_files]
  split
  · exact ⟨[Ev.status (errorMsg "KeyError"
      ("\x27Cuenta desconocida: " ++ cuenta ++ "\x27"))], rfl, rfl⟩
  · split
    · rename_i tup evs etype text x heq
      rw [heq] at hloop
      refine ⟨evs ++ [Ev.status (errorMsg etype text)], by simp [List.append_assoc], ?_⟩
      rw [List.all_append, Bool.and_eq_true]
      exact ⟨hloop, rfl⟩
    · rename_i tup evs heq
      rw [heq] at hloop
      exact ⟨evs, rfl, hloop⟩
    · rename_i tup evs heq
      rw [heq] at hloop
      refine ⟨evs ++ [Ev.progress 100, Ev.status "✅ Subida completada"],
        by simp [List.append_assoc], ?_⟩
      rw [List.all_append, Bool.and_eq_true]
      exact ⟨hloop, rfl⟩

/-! ## C5 — fail-fast across the batch -/

theorem statusTrace_append (a b : List Ev) :
    statusTrace (a ++ b) = statusTrace a ++ statusTrace b := by
  simp [statusTrace]

/-- C5: in a 3-file batch whose first file completes and whose second file
fails fatally (a non-transient error or retry exhaustion propagating out of
its chunk loop), the status callback receives exactly the upload-start
messages for files 1 and 2 — none for file 3 — followed by exactly one
failure status naming the error class and message. -/
theorem upload_files_fail_fast (cuentas : List (String × String)) (cuenta carpeta : String)
    (f1 f2 f3 : FileSpec) (delOk : String → Bool) (max_retries : ℕ) (base_delay : ℚ)
    (evs1 evs2 : List Ev) (etype text : String)
    (hc : cuentas.lookup cuenta = some carpeta)
    (h1 : upload_chunk_loop max_retries base_delay 0 f1.script = .completed evs1)
    (h2 : upload_chunk_loop max_retries base_delay 0 f2.script = .failed evs2 etype text) :
    statusTrace (upload_files cuentas cuenta [f1, f2, f3] delOk max_retries base_delay) =
      [subiendoMsg 1 3 (basename f1.ruta), subiendoMsg 2 3 (basename f2.ruta),
       errorMsg etype text] := by
  have k1 : statusTrace evs1 = [] := by
    have h := upload_chunk_loop_evs_kinds max_retries base_delay f1.script 0
    rw [h1] at h
    exact statusTrace_eq_nil_of_kinds h
  have k2 : statusTrace evs2 = [] := by
    have h := upload_chunk_loop_evs_kinds max_retries base_delay f2.script 0
    rw [h2] at h
    exact statusTrace_eq_nil_of_kinds h
  simp only [upload_files, hc, upload_files_loop, h1, h2, List.length_cons,
    List.length_nil, List.map_cons, List.map_nil]
  simp only [statusTrace] at k1 k2
  norm_num [statusTrace_append, k1, k2, statusTrace, List.filterMap_cons]

/-- C5, witness: a concrete 3-file batch where file 2 fails with a
non-transient `HttpError` ("404 not found"). -/
theorem upload_files_fail_fast_witness :
    [("acc", "fld")].lookup "acc" = some "fld" ∧
    upload_chunk_loop 7 1.2 0 [CallOutcome.ok none true] = .completed [] ∧
    upload_chunk_loop 7 1.2 0 [CallOutcome.exn "HttpError" true "404 not found"] =
      .failed [] "HttpError" "404 not found" ∧
    statusTrace (upload_files [("acc", "fld")] "acc"
      [⟨"temp_uploads/a.txt", [CallOutcome.ok none true]⟩,
       ⟨"temp_uploads/b.txt", [CallOutcome.exn "HttpError" true "404 not found"]⟩,
       ⟨"temp_uploads/c.txt", []⟩] (fun _ => true) 7 1.2) =
      ["Subiendo (1/3): a.txt", "Subiendo (2/3): b.txt",
       "❌ Error: HttpError: 404 not found"] := by
  refine ⟨by decide, by decide, by decide, ?_⟩
  have h := upload_files_fail_fast [("acc", "fld")] "acc" "fld"
    ⟨"temp_uploads/a.txt", [CallOutcome.ok none true]⟩
    ⟨"temp_uploads/b.txt", [CallOutcome.exn "HttpError" true "404 not found"]⟩
    ⟨"temp_uploads/c.txt", []⟩ (fun _ => true) 7 1.2 [] [] "HttpError" "404 not found"
    (by decide) (by decide) (by decide)
  exact h.trans (by decide)

/-! ## C7 — the final 100% progress callback -/

/-- C7, counterexample: in a 2-file batch whose first file's remote session
reports the transfer fully done (with `status = None` on the final chunk, as
the resumable-upload client does), no progress callback at 100 is issued for
file 1 before the coordinator moves on to file 2: the only `progress_cb(100)`
call sits after the whole batch (app.py line 128). The first three events of
the trace are file 1's start, the progress reset, and file 2's start. -/
theorem upload_files_no_per_file_final_progress :
    upload_chunk_loop 7 1.2 0 [CallOutcome.ok none true] = .completed [] ∧
    upload_files [("acc", "fld")] "acc"
      [⟨"a.txt", [CallOutcome.ok none true]⟩, ⟨"b.txt", [CallOutcome.ok none true]⟩]
      (fun _ => true) 7 1.2 =
      [.status "Subiendo (1/2): a.txt", .progress 0,
       .status "Subiendo (2/2): b.txt", .progress 0,
       .progress 100, .status "✅ Subida completada",
       .remove "a.txt" true, .remove "b.txt" true] ∧
    Ev.progress 100 ∉ (upload_files [("acc", "fld")] "acc"
      [⟨"a.txt", [CallOutcome.ok none true]⟩, ⟨"b.txt", [CallOutcome.ok none true]⟩]
      (fun _ => true) 7 1.2).take 3 := by
  refine ⟨by decide, by decide, by decide⟩

theorem upload_files_loop_all_completed (max_retries : ℕ) (base_delay : ℚ) (total : ℕ)
    (files : List FileSpec)
    (hall : ∀ f ∈ files, ∃ evs, upload_chunk_loop max_retries base_delay 0 f.script =
      .completed evs) :
    ∀ i, (upload_files_loop max_retries base_delay total i files).2 = (none, false) := by
  induction files with
  | nil => intro i; rfl
  | cons f rest ih =>
    intro i
    obtain ⟨evs, hf⟩ := hall f (by simp)
    have := ih (fun g hg => hall g (by simp [hg])) (i + 1)
    simp [upload_files_loop, hf, this]

/-- C7, amended: the 100% progress guarantee is batch-level, not per-file —
when every file's session completes, `upload_files` issues one progress
callback at exactly 100 after the last file, immediately before the success
status and before the cleanup; an individual file's session can return
without a 100% callback of its own (see the counterexample). -/
theorem upload_files_batch_final_progress (cuentas : List (String × String))
    (cuenta carpeta : String) (files : List FileSpec) (delOk : String → Bool)
    (max_retries : ℕ) (base_delay : ℚ)
    (hc : cuentas.lookup cuenta = some carpeta)
    (hall : ∀ f ∈ files, ∃ evs, upload_chunk_loop max_retries base_delay 0 f.script =
      .completed evs) :
    ∃ body : List Ev,
      upload_files cuentas cuenta files delOk max_retries base_delay =
        body ++ [Ev.progress 100, Ev.status "✅ Subida completada"] ++
          files.map (fun f => Ev.remove f.ruta (delOk f.ruta)) := by
  have hend := upload_files_loop_all_completed max_retries base_delay files.length files hall 1
  simp only [upload_files, hc]
  rcases hres : upload_files_loop max_retries base_delay files.length 1 files with ⟨evs, pr⟩
  rw [hres] at hend
  simp only at hend
  rw [hend]
  exact ⟨evs, by simp [List.append_assoc]⟩

/-- C7, witness for the amended theorem: a 2-file batch whose sessions both
complete. -/
theorem upload_files_batch_final_progress_witness :
    [("acc", "fld")].lookup "acc" = some "fld" ∧
    (∀ f ∈ [(⟨"a.txt", [CallOutcome.ok none true]⟩ : FileSpec),
            ⟨"b.txt", [CallOutcome.ok (some 1) true]⟩],
      ∃ evs, upload_chunk_loop 7 1.2 0 f.script = .completed evs) ∧
    ∃ body : List Ev,
      upload_files [("acc", "fld")] "acc"
        [⟨"a.txt", [CallOutcome.ok none true]⟩, ⟨"b.txt", [CallOutcome.ok (some 1) true]⟩]
        (fun _ => true) 7 1.2 =
        body ++ [Ev.progress 100, Ev.status "✅ Subida completada"] ++
          [(⟨"a.txt", [CallOutcome.ok none true]⟩ : FileSpec),
           ⟨"b.txt", [CallOutcome.ok (some 1) true]⟩].map
            (fun f => Ev.remove f.ruta ((fun _ => true) f.ruta)) := by
  have hall : ∀ f ∈ [(⟨"a.txt", [CallOutcome.ok none true]⟩ : FileSpec),
      ⟨"b.txt", [CallOutcome.ok (some 1) true]⟩],
      ∃ evs, upload_chunk_loop 7 1.2 0 f.script = .completed evs := by
    intro f hf
    simp only [List.mem_cons, List.not_mem_nil, or_false] at hf
    rcases hf with rfl | rfl
    · exact ⟨[], by decide⟩
    · exact ⟨[Ev.progress 100], by norm_num [upload_chunk_loop]⟩
  exact ⟨by decide, hall,
    upload_files_batch_final_progress [("acc", "fld")] "acc" "fld" _ _ 7 1.2 (by decide) hall⟩

/-! ## C9 — monotone, bounded progress -/

theorem upload_chunk_loop_progress_initial (max_retries : ℕ) (base_delay : ℚ)
    (script : List CallOutcome) :
    ∀ intento, ∃ pre, pre <+: okFracs script ∧
      progressVals (upload_chunk_loop max_retries base_delay intento script).evs =
        pre.map (fun q => ⌊q * 100⌋) := by
  induction script with
  | nil => intro i; exact ⟨[], ⟨[], rfl⟩, rfl⟩
  | cons o rest ih =>
    intro i
    match o with
    | .ok none d =>
      cases d with
      | true => exact ⟨[], ⟨okFracs rest, by simp [okFracs, List.filterMap_cons]⟩, rfl⟩
      | false =>
        obtain ⟨pre, hpre, heq⟩ := ih 0
        obtain ⟨t, ht⟩ := hpre
        refine ⟨pre, ⟨t, by simpa [okFracs, List.filterMap_cons] using ht⟩, ?_⟩
        simpa [upload_chunk_loop, SessRes.evs_push] using heq
    | .ok (some q) d =>
      cases d with
      | true =>
        refine ⟨[q], ⟨okFracs rest, by simp [okFracs, List.filterMap_cons]⟩, ?_⟩
        simp [upload_chunk_loop, progressVals, SessRes.evs, List.filterMap_cons]
      | false =>
        obtain ⟨pre, hpre, heq⟩ := ih 0
        obtain ⟨t, ht⟩ := hpre
        refine ⟨q :: pre, ⟨t, by simp [okFracs, List.filterMap_cons, ht]⟩, ?_⟩
        simp [upload_chunk_loop, SessRes.evs_push, progressVals, List.filterMap_cons]
        simpa [progressVals] using heq
    | .exn ty c tx =>
      by_cases hc : c = true ∧ i < max_retries ∧ is_transient tx = true
      · obtain ⟨pre, hpre, heq⟩ := ih (i + 1)
        obtain ⟨t, ht⟩ := hpre
        refine ⟨pre, ⟨t, by simpa [okFracs, List.filterMap_cons] using ht⟩, ?_⟩
        simp only [upload_chunk_loop, if_pos hc, SessRes.evs_push]
        simpa [progressVals, List.filterMap_cons] using heq
      · refine ⟨[], ⟨okFracs (.exn ty c tx :: rest), by simp⟩, ?_⟩
        simp [upload_chunk_loop, if_neg hc, SessRes.evs, progressVals]

/-- C9: within one file's transfer session, if the fractions reported by the
remote session are non-decreasing and lie in [0, 1] (the resumable-upload
client's own invariant: `bytesSent` never decreases and never exceeds
`totalBytes`, `progress() = bytesSent/totalBytes`), then the sequence of
percent values passed to the progress callback is non-decreasing and every
value lies in [0, 100]. -/
theorem upload_chunk_loop_progress_monotone (max_retries : ℕ) (base_delay : ℚ)
    (script : List CallOutcome)
    (hmono : (okFracs script).Chain' (· ≤ ·))
    (hbound : ∀ q ∈ okFracs script, 0 ≤ q ∧ q ≤ 1) :
    (progressVals (upload_chunk_loop max_retries base_delay 0 script).evs).Chain' (· ≤ ·) ∧
    ∀ p ∈ progressVals (upload_chunk_loop max_retries base_delay 0 script).evs,
      0 ≤ p ∧ p ≤ 100 := by
  obtain ⟨pre, hpre, heq⟩ :=
    upload_chunk_loop_progress_initial max_retries base_delay script 0
  rw [heq]
  have hchain : pre.Chain' (· ≤ ·) := hmono.sublist hpre.sublist
  constructor
  · rw [List.chain'_map]
    exact hchain.imp (fun a b hab => Int.floor_le_floor (by nlinarith))
  · intro p hp
    rw [List.mem_map] at hp
    obtain ⟨q, hq, rfl⟩ := hp
    have hq2 := hbound q (hpre.sublist.subset hq)
    refine ⟨Int.le_floor.mpr (by push_cast; nlinarith [hq2.1]), ?_⟩
    have h100 : (⌊q * 100⌋ : ℤ) ≤ ⌊(100 : ℚ)⌋ := Int.floor_le_floor (by nlinarith [hq2.2])
    simpa using h100

/-- C9, witness: a session whose remote reports fraction 0 then fraction 1. -/
theorem upload_chunk_loop_progress_monotone_witness :
    (okFracs [CallOutcome.ok (some 0) false, CallOutcome.ok (some 1) true]).Chain' (· ≤ ·) ∧
    (∀ q ∈ okFracs [CallOutcome.ok (some 0) false, CallOutcome.ok (some 1) true],
      0 ≤ q ∧ q ≤ 1) ∧
    ((progressVals (upload_chunk_loop 7 1.2 0
        [CallOutcome.ok (some 0) false, CallOutcome.ok (some 1) true]).evs).Chain' (· ≤ ·) ∧
      ∀ p ∈ progressVals (upload_chunk_loop 7 1.2 0
        [CallOutcome.ok (some 0) false, CallOutcome.ok (some 1) true]).evs,
      0 ≤ p ∧ p ≤ 100) := by
  have hfr : okFracs [CallOutcome.ok (some 0) false, CallOutcome.ok (some 1) true] =
      [0, 1] := rfl
  have hmono : (okFracs [CallOutcome.ok (some 0) false,
      CallOutcome.ok (some 1) true]).Chain' (· ≤ ·) := by
    rw [hfr]
    norm_num [List.chain'_cons, List.chain'_singleton]
  have hbound : ∀ q ∈ okFracs [CallOutcome.ok (some 0) false, CallOutcome.ok (some 1) true],
      0 ≤ q ∧ q ≤ 1 := by
    rw [hfr]
    intro q hq
    simp only [List.mem_cons, List.not_mem_nil, or_false] at hq
    rcases hq with rfl | rfl <;> norm_num
  exact ⟨hmono, hbound,
    upload_chunk_loop_progress_monotone 7 1.2 _ hmono hbound⟩

/-! ## C8 — the `/upload` intake -/

/-- C8: a request whose destination name is unrecognized (absent, empty or not
a key of `CUENTAS`) or whose file list is empty is rejected with HTTP 400 and
a JSON `error` reason; no background worker is started and no file is staged
by the request (both rejections happen before any `f.save`, so there is
nothing left to clean up). -/
theorem upload_rejects_bad_requests (cuentasKeys : List String)
    (secure_fn : String → String) (cuenta : Option String)
    (archivos : List (Option String))
    (h : (∀ s, cuenta = some s → s ∉ cuentasKeys) ∨ archivos = []) :
    (upload cuentasKeys secure_fn cuenta archivos).code = 400 ∧
    (upload cuentasKeys secure_fn cuenta archivos).error.isSome = true ∧
    (upload cuentasKeys secure_fn cuenta archivos).workerStarted = false ∧
    (upload cuentasKeys secure_fn cuenta archivos).saved = [] := by
  rcases h with h | rfl
  · by_cases hf : (falsyStr cuenta || archivos.isEmpty) = true
    · simp [upload, hf]
    · have hnot : cuenta.getD "" ∉ cuentasKeys := by
        cases cuenta with
        | none => simp [falsyStr] at hf
        | some s => simpa using h s rfl
      simp [upload, hf, hnot]
  · simp [upload]

/-- C8, witness: unknown destination "bad" with a nonempty file list. -/
theorem upload_rejects_bad_requests_witness :
    ((∀ s, (some "bad" : Option String) = some s → s ∉ ["acc"]) ∨
      ([some "a.txt"] : List (Option String)) = []) ∧
    (upload ["acc"] id (some "bad") [some "a.txt"]).code = 400 ∧
    (upload ["acc"] id (some "bad") [some "a.txt"]).error.isSome = true ∧
    (upload ["acc"] id (some "bad") [some "a.txt"]).workerStarted = false ∧
    (upload ["acc"] id (some "bad") [some "a.txt"]).saved = [] := by
  have h : (∀ s, (some "bad" : Option String) = some s → s ∉ ["acc"]) ∨
      ([some "a.txt"] : List (Option String)) = [] := by
    left
    intro s hs
    cases hs
    decide
  exact ⟨h, upload_rejects_bad_requests ["acc"] id (some "bad") [some "a.txt"] h⟩
